import Mathlib

/-!
Verification of the `fmtd` file-formatting orchestrator.

This development shallowly embeds the selection / archival / invocation /
demultiplexing pipeline of the `fmtd` repository:

* `fmtd.Fmt` (fmtd.go): candidate selection (`ensureRegular`, `ensureUnder`,
  `ensureWritable`, `uniqueSorted`), manifest generation (`dockerfile`),
  and the dry-run policy signal (`ErrDryRunFoundFiles`);
* `buildx.New` (buildx/buildx.go): input tar construction, subprocess error
  classification (`ErrNoDocker`, `ErrDockerBuildFailure`), and output-archive
  demultiplexing with the reserved `stdout` diagnostic entry;
* `buildx.OverwriteFileContents` (buildx/buildx.go): in-place truncate-and-
  rewrite of an already-existing file.

The filesystem is modelled as an in-memory tree of named nodes (regular file
with contents and a writability bit, directory, or an opaque non-regular
node standing for symlinks/devices).  The model has no symbolic links, so
lexical path resolution agrees with kernel path resolution, and `os.ReadDir`
enumeration order is taken to be the stored entry order.  File contents are
modelled as `String`s and byte lengths as `String.length`.  The `docker`
subprocess is a parameter: a function from the input archive to either an
output archive or a textual process error, mirroring `cmd.Run()`.

String primitives (prefix test, splitting, ordering) are re-implemented over
`String.data` character lists so that every definition evaluates inside the
kernel; on the ASCII paths manipulated by the tool these agree with Go's
byte-wise `strings`/`sort` functions.
-/

/-- Decidable equality for `Except`, used to evaluate pipeline results on
concrete inputs. -/
instance {ε α : Type} [DecidableEq ε] [DecidableEq α] : DecidableEq (Except ε α) := fun x y =>
  match x, y with
  | .ok a, .ok b => if h : a = b then isTrue (by rw [h]) else isFalse (by simp [h])
  | .error a, .error b => if h : a = b then isTrue (by rw [h]) else isFalse (by simp [h])
  | .ok _, .error _ => isFalse (by simp)
  | .error _, .ok _ => isFalse (by simp)

namespace Fmtd

/-! ## String primitives over character lists -/

/-- Character-list prefix test (Go `strings.HasPrefix` on the decoded
characters). -/
def isPfxOf : List Char → List Char → Bool
  | [], _ => true
  | _ :: _, [] => false
  | a :: as, b :: bs => a = b && isPfxOf as bs

/-- Go `strings.HasPrefix` / `String.startsWith`. -/
def strStartsWith (s pre : String) : Bool := isPfxOf pre.data s.data

/-- Go `strings.HasSuffix` / `String.endsWith`. -/
def strEndsWith (s suf : String) : Bool := isPfxOf suf.data.reverse s.data.reverse

/-- Go `strings.TrimPrefix`: drop `pre` when it is a prefix, else return the
string unchanged. -/
def trimPfx (s pre : String) : String :=
  if strStartsWith s pre then ⟨s.data.drop pre.data.length⟩ else s

/-- Lexicographic comparison of character lists (Go byte-wise string `<=`,
as used by `sort.Strings`; identical on ASCII data). -/
def charListLe : List Char → List Char → Bool
  | [], _ => true
  | _ :: _, [] => false
  | a :: as, b :: bs => if a = b then charListLe as bs else decide (a < b)

/-- Go string `<=`. -/
def strLe (a b : String) : Bool := charListLe a.data b.data

/-- Go string `<=` as a relation, the sort order of `sort.Strings`. -/
def strLeP (a b : String) : Prop := strLe a b = true

instance : DecidableRel strLeP := fun a b => inferInstanceAs (Decidable (strLe a b = true))

/-! ## Go `path/filepath` primitives (Unix rules, as used by the source) -/

/-- Go `filepath.IsAbs` on Unix: the path starts with a slash. -/
def isAbs (p : String) : Bool := strStartsWith p "/"

/-- Go `filepath.VolumeName` on Unix: always empty. -/
def volumeName (_ : String) : String := ""

/-- Split a character list on slashes (Go `strings.Split(p, "/")`). -/
def splitSlashAux : List Char → List Char → List String
  | [], acc => [String.mk acc.reverse]
  | c :: cs, acc =>
    if c = '/' then String.mk acc.reverse :: splitSlashAux cs []
    else splitSlashAux cs (c :: acc)

/-- Split a path on slashes. -/
def splitSlash (p : String) : List String := splitSlashAux p.data []

/-- One step of Go `filepath.Clean`'s component processing: the accumulator is
the stack of kept components in reverse order. -/
def cleanStep (rooted : Bool) (acc : List String) (c : String) : List String :=
  if c = "" ∨ c = "." then acc
  else if c = ".." then
    match acc with
    | [] => if rooted then [] else [".."]
    | a :: rest => if a = ".." then c :: acc else rest
  else c :: acc

/-- Cleaned component list of a path (Go `filepath.Clean` without the final
string reassembly): empty components and `.` are dropped, `..` pops a
previous component, and `..` at the root is dropped. -/
def cleanComps (rooted : Bool) (cs : List String) : List String :=
  (cs.foldl (cleanStep rooted) []).reverse

/-- Go `filepath.Clean` for Unix paths. -/
def clean (p : String) : String :=
  let rooted := isAbs p
  let l := cleanComps rooted (splitSlash p)
  if rooted then "/" ++ String.intercalate "/" l
  else if l.isEmpty then "." else String.intercalate "/" l

/-- Go `filepath.Join` of two elements (empty elements are dropped before
cleaning). -/
def pathJoin (a b : String) : String :=
  if a = "" then (if b = "" then "" else clean b)
  else if b = "" then clean a
  else clean (a ++ "/" ++ b)

/-- Component list of the absolute version of `fn` resolved against the
absolute working directory `pwd` (Go `filepath.Abs`, which joins with the
working directory and cleans). -/
def absComps (pwd fn : String) : List String :=
  if isAbs fn then cleanComps true (splitSlash fn)
  else cleanComps true (splitSlash (pwd ++ "/" ++ fn))

/-- String form of the absolute cleaned path (what Go `filepath.Abs`
returns). -/
def absStr (pwd fn : String) : String :=
  "/" ++ String.intercalate "/" (absComps pwd fn)

/-- Go `filepath.Base`. -/
def baseName (p : String) : String :=
  if p = "" then "."
  else
    match ((splitSlash p).filter (· ≠ "")).getLast? with
    | some x => x
    | none => if isAbs p then "/" else "."

/-! ## The in-memory filesystem -/

mutual
/-- A filesystem node: a regular file (contents plus a writability bit), a
directory, or an opaque non-regular node (symlink, device, socket, ...). -/
inductive Node where
  | file (content : String) (writable : Bool)
  | dir (entries : Entries)
  | other

/-- Directory entries: an association list of names to nodes, stored in the
order `os.ReadDir` would enumerate them. -/
inductive Entries where
  | nil
  | cons (name : String) (child : Node) (rest : Entries)
end

/-- Find the child of a directory by name. -/
def lookupE (name : String) : Entries → Option Node
  | .nil => none
  | .cons nm c rest => if nm = name then some c else lookupE name rest

/-- Resolve a cleaned absolute component list in the tree rooted at `fs`. -/
def resolveN (fs : Node) : List String → Option Node
  | [] => some fs
  | c :: cs =>
    match fs with
    | .dir es =>
      match lookupE c es with
      | some child => resolveN child cs
      | none => none
    | _ => none

/-- Model of `os.Lstat`: resolve `fn` against the working directory `pwd`
in the filesystem `fs` (no symlinks, so lexical resolution is exact; the
empty path fails with `ENOENT` as it does for the OS). -/
def lstat (fs : Node) (pwd fn : String) : Option Node :=
  if fn = "" then none else resolveN fs (absComps pwd fn)

/-! ## Error taxonomy

Go renders all of these as `error` values; the constructors keep the
classification the source distinguishes: `unusable` wraps a selection
failure with the offending path (fmtd.go `unusable`), `noDocker` is
`buildx.ErrNoDocker`, `dockerBuildFailure` is `buildx.ErrDockerBuildFailure`,
`dryRunFoundFiles` is `fmtd.ErrDryRunFoundFiles`, `execError` is any other
`cmd.Run` error propagated unchanged, and `osError` is an operating-system
error propagated unchanged from the output-file callback. -/
inductive Err where
  | unusable (fn : String) (reason : String)
  | noDocker
  | dockerBuildFailure
  | dryRunFoundFiles
  | execError (msg : String)
  | osError (msg : String)
deriving DecidableEq, Repr

/-- Result of `os.OpenFile(fn, os.O_RDWR, 0200)` on a resolved node: succeeds
only on a writable regular file. -/
def openRW : Node → Except String Unit
  | .file _ w => if w then .ok () else .error "permission denied"
  | .dir _ => .error "is a directory"
  | .other => .error "operation not permitted"

/-- The writability half of fmtd.go `ensureWritable`, applied to a node that
a path resolved to (`Close` never fails in the model). -/
def ensureWritableNode (fn : String) (n : Node) : Except Err Unit :=
  match openRW n with
  | .error e => .error (.unusable fn e)
  | .ok _ => .ok ()

/-- fmtd.go `ensureWritable`: open the path read-write, wrapping any failure
as an unusable-file error. -/
def ensureWritable (fs : Node) (pwd fn : String) : Except Err Unit :=
  match lstat fs pwd fn with
  | none => .error (.unusable fn "no such file or directory")
  | some n => ensureWritableNode fn n

/-- fmtd.go `ensureUnder`: volume check (vacuous on Unix), then, only for
paths that start with a dot or are absolute, a string-prefix check of the
absolute path against `pwd` (`filepath.HasPrefix` is a plain string prefix
test). -/
def ensureUnder (pwd fn : String) : Except Err Unit :=
  if volumeName fn ≠ volumeName pwd then .error (.unusable fn "not on $PWD's volume")
  else if strStartsWith fn "." || isAbs fn then
    if !strStartsWith (absStr pwd fn) pwd then .error (.unusable fn "not under $PWD")
    else .ok ()
  else .ok ()

/-- Is a directory-entry name hidden?  The source tests
`name != "" && name[0] == '.'`, which is exactly a leading dot. -/
def hiddenName (s : String) : Bool := strStartsWith s "."

mutual
/-- The `filepath.WalkDir` callback of fmtd.go `ensureRegular`, run over the
tree: hidden names are skipped (`fs.SkipDir` for directories, pruning them),
non-regular entries are skipped, and regular files are checked writable
(unless `dryrun`) and collected.  `path` is the walked path string, `name`
the entry's base name (`d.Name()`). -/
def walkNode (dryrun : Bool) (path name : String) : Node → Except Err (List String)
  | Node.file c w =>
    if hiddenName name then .ok []
    else
      match (if dryrun then Except.ok () else ensureWritableNode path (.file c w)) with
      | .error e => .error e
      | .ok _ => .ok [path]
  | Node.dir es =>
    if hiddenName name then .ok []
    else walkChildren dryrun path es
  | Node.other => .ok []

/-- Walk the children of a directory in `os.ReadDir` order, concatenating
collected files and propagating the first error. -/
def walkChildren (dryrun : Bool) (path : String) : Entries → Except Err (List String)
  | .nil => .ok []
  | .cons nm c rest =>
    match walkNode dryrun (pathJoin path nm) nm c with
    | .error e => .error e
    | .ok l =>
      match walkChildren dryrun path rest with
      | .error e => .error e
      | .ok r => .ok (l ++ r)
end

/-- fmtd.go `ensureRegular`: `Lstat` the candidate; a regular file yields no
additional names, a directory is walked collecting non-hidden regular files,
anything else is an unusable-file error. -/
def ensureRegular (fs : Node) (pwd : String) (dryrun : Bool) (fn : String) :
    Except Err (List String) :=
  match lstat fs pwd fn with
  | none => .error (.unusable fn "no such file or directory")
  | some (.file _ _) => .ok []
  | some (.dir es) => walkNode dryrun fn (baseName fn) (.dir es)
  | some .other => .error (.unusable fn "not a regular file")

/-- fmtd.go `uniqueSorted`: deduplicate through a set and sort
lexicographically (`sort.Strings`). -/
def uniqueSorted (xs : List String) : List String :=
  (xs.dedup).insertionSort strLeP

/-! ## Selection phase of `Fmt` (fmtd.go lines 117-141) -/

/-- The candidate loop of `Fmt`: for each filename, `ensureRegular`; a
directory's collected files go to `moreFns`, a regular file goes to `fns`
and is checked with `ensureUnder` and (unless dry-run) `ensureWritable`.
The first failure aborts the loop. -/
def selectLoop (fs : Node) (pwd : String) (dryrun : Bool) :
    List String → Except Err (List String × List String)
  | [] => .ok ([], [])
  | fn :: rest =>
    match ensureRegular fs pwd dryrun fn with
    | .error e => .error e
    | .ok additional =>
      if additional.isEmpty then
        match ensureUnder pwd fn with
        | .error e => .error e
        | .ok _ =>
          match (if dryrun then Except.ok () else ensureWritable fs pwd fn) with
          | .error e => .error e
          | .ok _ =>
            match selectLoop fs pwd dryrun rest with
            | .error e => .error e
            | .ok (fns, more) => .ok (fn :: fns, more)
      else
        match selectLoop fs pwd dryrun rest with
        | .error e => .error e
        | .ok (fns, more) => .ok (fns, additional ++ more)

/-- Outcome of the selection phase: the deduplicated sorted file list and the
traversal-discovered names (`moreFns`, whose emptiness controls the
manifest's complain flag). -/
structure Selection where
  files : List String
  moreFns : List String
deriving DecidableEq, Repr

/-- The selection phase of `Fmt`: default to `pwd` when no candidate is
given, run the candidate loop, then deduplicate and sort. -/
def fmtSelect (fs : Node) (pwd : String) (dryrun : Bool) (filenames0 : List String) :
    Except Err Selection :=
  match selectLoop fs pwd dryrun (if filenames0.isEmpty then [pwd] else filenames0) with
  | .error e => .error e
  | .ok (fns, more) => .ok ⟨uniqueSorted (fns ++ more), more⟩

/-! ## Read phase (fmtd.go lines 162-168) -/

/-- Model of `os.ReadFile` (follows no symlinks in the model; any non-file
fails), wrapped by `Fmt` as an unusable-file error. -/
def readFile (fs : Node) (pwd fn : String) : Except Err String :=
  match lstat fs pwd fn with
  | some (.file c _) => .ok c
  | some (.dir _) => .error (.unusable fn "is a directory")
  | some .other => .error (.unusable fn "no such device")
  | none => .error (.unusable fn "no such file or directory")

/-- Read every selected file in order, returning the successfully read
(name, contents) pairs and the first failure if any. -/
def readAll (fs : Node) (pwd : String) :
    List String → List (String × String) × Option Err
  | [] => ([], none)
  | fn :: rest =>
    match readFile fs pwd fn with
    | .error e => ([], some e)
    | .ok d =>
      let (ps, e) := readAll fs pwd rest
      ((fn, d) :: ps, e)

/-! ## The generated build manifest (fmtd.go `dockerfile`, lines 25-102)

The Go source concatenates three raw string literals with the `complaining`
command spliced between the wildcard pattern and the case terminator. -/

/-- First raw literal of fmtd.go `dockerfile` (after the `[1:]` slice). -/
def dockerfileHeader : String :=
  "# syntax=docker.io/docker/dockerfile:1@sha256:42399d4635eddd7a9b8a24be879d2f9a930d0ed040a61324cfdf59ef1357b3b2\n"

/-- Second raw literal of fmtd.go `dockerfile`, ending with the wildcard
case pattern of the dispatch `case` statement. -/
def dockerfileBody : String :=
  "\n\nARG BUILDIFIER_IMAGE=docker.io/whilp/buildifier@sha256:67da91fdddd40e9947153bc9157ab9103c141fcabcdbf646f040ba7a763bc531\n" ++
  "ARG CLANGFORMAT_IMAGE=docker.io/unibeautify/clang-format@sha256:1b2d3997012ae221c600668802f1b761973d9006d330effa9555516432dea9c1\n" ++
  "ARG GOFMT_IMAGE=docker.io/library/golang:1@sha256:4918412049183afe42f1ecaf8f5c2a88917c2eab153ce5ecf4bf2d55c1507b74\n" ++
  "ARG SHFMT_IMAGE=docker.io/mvdan/shfmt@sha256:f0d8d9f0c9dc15eb4e76b06035e7ffc59018d08e300e0af096be481a37a7d1dc\n" ++
  "\nFROM --platform=$BUILDPLATFORM $BUILDIFIER_IMAGE AS buildifier\n" ++
  "FROM --platform=$BUILDPLATFORM $CLANGFORMAT_IMAGE AS clang-format\n" ++
  "FROM --platform=$BUILDPLATFORM $GOFMT_IMAGE AS golang\n" ++
  "FROM --platform=$BUILDPLATFORM $SHFMT_IMAGE AS shfmt\n" ++
  "FROM --platform=$BUILDPLATFORM docker.io/library/alpine@sha256:21a3deaa0d32a8057914f36584b5288d2e5ecc984380bc0118285c70fa8c9300 AS alpine\n" ++
  "\n# See https://github.com/Unibeautify/docker-beautifiers\n" ++
  "\nFROM alpine AS tool\nWORKDIR /app/b\nWORKDIR /app/a\nARG YAPF_VERSION=0.31.0\nARG SQLFORMAT_VERSION=0.4.2\n" ++
  "RUN \\\n  --mount=type=cache,target=/var/cache/apk ln -vs /var/cache/apk /etc/apk/cache && \\\n    set -ux \\\n && apk add --no-cache py3-pip clang emacs jq \\\n && touch /app/stdout \\\n && pip3 install \\\n      yapf==\"$YAPF_VERSION\" \\\n      sqlparse==\"$SQLFORMAT_VERSION\"\n" ++
  "COPY --from=buildifier /buildifier /usr/bin/buildifier\n" ++
  "COPY --from=clang-format /usr/bin/clang-format /usr/bin/clang-format\n" ++
  "COPY --from=golang /usr/local/go/bin/gofmt /usr/bin/gofmt\n" ++
  "COPY --from=shfmt /bin/shfmt /usr/bin/shfmt\n" ++
  "\nFROM tool AS product\nCOPY a /app/a/\n" ++
  "RUN \\\n    set -ux \\\n && while read -r f; do \\\n      f=$\x7bf#./*\x7d \\\n      && \\\n      mkdir -p ../b/\"$(dirname \"$f\")\" \\\n      && \\\n      case \"$f\" in \\\n" ++
  "      # C / C++ / Protocol Buffers / Objective-C / Objective-C++\n" ++
  "        *.c|*.cc|*.cpp|*.h|*.hh|*.proto|*.m|*.mm) clang-format -style=google -sort-includes \"$f\" >../b/\"$f\" ;; \\\n" ++
  "      # Bazel / Skylark / Starlark\n" ++
  "        BUILD|*.BUILD|*.bzl|*.sky|*.star|WORKSPACE) cp \"$f\" ../b/\"$f\" && buildifier -lint=fix ../b/\"$f\" ;; \\\n" ++
  "      # JSON\n" ++
  "        *.json) cat \"$f\" | jq -S --tab . >../b/\"$f\" ;; \\\n" ++
  "      # Python\n" ++
  "        *.py) yapf --style=google \"$f\" >../b/\"$f\" ;; \\\n" ++
  "      # Shell\n" ++
  "        *.sh) shfmt -s -p -kp \"$f\" >../b/\"$f\" ;; \\\n" ++
  "      # SQL\n" ++
  "        *.sql) sqlformat --keywords=upper --reindent --reindent_aligned --use_space_around_operators --comma_first True \"$f\" >../b/\"$f\" ;; \\\n" ++
  "      # Go\n" ++
  "        *.go) gofmt -s \"$f\" >../b/\"$f\" ;; \\\n" ++
  "      # YAML TODO: *.yaml|*.yml)\n" ++
  "      # Erlang TODO: *.erl)\n" ++
  "        *) "

/-- Third raw literal of fmtd.go `dockerfile`, beginning with the case
terminator that follows the spliced `complaining` command. -/
def dockerfileTail : String :=
  " ;; \\\n      esac \\\n      && \\\n      if [ -f ../b/\"$f\" ] && diff -q \"$f\" ../b/\"$f\" >/dev/null; then rm ../b/\"$f\"; fi \\\n      ; \\\n   done < <(find . -type f)\n\nFROM scratch\nCOPY --from=product /app/b/ /\nCOPY --from=product /app/stdout /\n"

/-- fmtd.go `dockerfile(complain)`: the generated build manifest.  When
`complain` holds, the wildcard (unhandled file type) case appends a
complaint line to the `stdout` diagnostic side-channel file; otherwise the
wildcard case runs no command at all. -/
def dockerfile (complain : Bool) : String :=
  let complaining := if complain then "echo \"! $f\" >>../stdout" else ""
  dockerfileHeader ++ dockerfileBody ++ complaining ++ dockerfileTail

/-! ## Input archive construction (buildx.go `New`, lines 214-244) -/

/-- A tar entry as written by `buildx.New`: header name, header mode, header
declared size, and the bytes written after the header. -/
structure TarEntry where
  name : String
  mode : Nat
  size : Nat
  content : String
deriving DecidableEq, Repr

/-- buildx.go `New`'s stdin tar: the `Dockerfile` manifest entry first with
mode `0200`, then one entry per input file named `filepath.Join("a", name)`
with mode `0600`; every declared size is the content's length. -/
def inputArchive (df : String) (ifiles : List (String × String)) : List TarEntry :=
  ⟨"Dockerfile", 0o200, df.length, df⟩ ::
    ifiles.map fun p => ⟨pathJoin "a" p.1, 0o600, p.2.length, p.2⟩

/-- Selection, read and archive phases composed: exactly the data `Fmt`
pipes to the build engine. -/
def fmtArchive (fs : Node) (pwd : String) (dryrun : Bool) (filenames0 : List String) :
    Except Err (List TarEntry) :=
  match fmtSelect fs pwd dryrun filenames0 with
  | .error e => .error e
  | .ok sel =>
    match (readAll fs pwd sel.files).2 with
    | some e => .error e
    | none => .ok (inputArchive (dockerfile sel.moreFns.isEmpty) (readAll fs pwd sel.files).1)

/-! ## The build-engine subprocess (buildx.go lines 246-258) -/

/-- Outcome of `cmd.Run()` on the docker subprocess: either the output
archive captured from stdout, or an error with its Go textual rendering. -/
inductive EngineResult where
  | success (out : List TarEntry)
  | failure (msg : String)

/-- buildx.go error classification after `cmd.Run()`: a failure rendered
exactly as `exit status 1` becomes `ErrDockerBuildFailure`; any other
failure is propagated unchanged. -/
def classifyRun (res : EngineResult) : Except Err (List TarEntry) :=
  match res with
  | .success out => .ok out
  | .failure msg =>
    if msg = "exit status 1" then .error .dockerBuildFailure
    else .error (.execError msg)

/-! ## `buildx.OverwriteFileContents` (buildx/buildx.go lines 300-320) -/

/-- Rebuild an entry list with the first entry named `c` replaced. -/
def replaceE (c : String) (child2 : Node) : Entries → Entries
  | .nil => .nil
  | .cons nm ch rest =>
    if nm = c then .cons nm child2 rest
    else .cons nm ch (replaceE c child2 rest)

/-- Core of `OverwriteFileContents` walking to the target of a cleaned
absolute component list: `os.OpenFile(fn, os.O_RDWR, 0)` (no `O_CREATE`,
so a missing target fails), then `Truncate(0)`, `Seek(0,0)` and `io.Copy`
replace the contents; the writability bit (file permissions) is untouched. -/
def overwriteAt (data : String) : Node → List String → Except String Node
  | .file _ w, [] => if w then .ok (.file data w) else .error "permission denied"
  | .dir _, [] => .error "is a directory"
  | .other, [] => .error "operation not permitted"
  | .dir es, c :: cs =>
    match lookupE c es with
    | none => .error "no such file or directory"
    | some child =>
      match overwriteAt data child cs with
      | .error e => .error e
      | .ok child2 => .ok (.dir (replaceE c child2 es))
  | .file _ _, _ :: _ => .error "not a directory"
  | .other, _ :: _ => .error "not a directory"

/-- `buildx.OverwriteFileContents`: replace the contents of an
already-existing file in place, changing nothing else (the empty path fails
with `ENOENT` as it does for the OS). -/
def overwriteFileContents (fs : Node) (pwd fn : String) (data : String) :
    Except String Node :=
  if fn = "" then .error "no such file or directory"
  else overwriteAt data fs (absComps pwd fn)

/-! ## Output demultiplexing (buildx.go lines 260-291) and the `Fmt`
output-file callback (fmtd.go lines 150-159) -/

/-- State threaded through the demultiplexing loop: the filesystem as
mutated so far, the per-file reports already printed to the primary output,
the paths overwritten so far, the `foundFiles` flag, and the buffered
diagnostic side-channel text (`stdoutf`). -/
structure DemuxState where
  fsCur : Node
  reports : List String
  wrote : List String
  foundFiles : Bool
  diag : String

/-- One iteration of the demultiplexing loop over a tar entry: directory
markers are skipped, the reserved `stdout` entry is buffered for later, and
every other entry is a per-file output: its name is stripped of the `b/`
output prefix with `strings.TrimPrefix`, printed (with a newline) to the
primary output, `foundFiles` is set, and unless dry-run the file is
overwritten in place. -/
def demuxStep (dryrun : Bool) (pwd : String) (st : DemuxState) (e : TarEntry) :
    Except Err DemuxState :=
  if strEndsWith e.name "/" then .ok st
  else if e.name = "stdout" then .ok { st with diag := st.diag ++ e.content }
  else
    let filename := trimPfx e.name "b/"
    let st1 := { st with reports := st.reports ++ [filename ++ "\n"], foundFiles := true }
    if dryrun then .ok st1
    else
      match overwriteFileContents st1.fsCur pwd filename e.content with
      | .error msg => .error (.osError msg)
      | .ok fs2 => .ok { st1 with fsCur := fs2, wrote := st1.wrote ++ [filename] }

/-- The demultiplexing loop: process entries in order, stopping at the first
error (in which case the buffered diagnostics are never flushed). -/
def demuxLoop (dryrun : Bool) (pwd : String) (st : DemuxState) :
    List TarEntry → DemuxState × Option Err
  | [] => (st, none)
  | e :: rest =>
    match demuxStep dryrun pwd st e with
    | .error err => (st, some err)
    | .ok st2 => demuxLoop dryrun pwd st2 rest

/-! ## The whole pipeline: `fmtd.Fmt` -/

/-- Observable outcome of a `Fmt` run: the returned error (`none` for a nil
return), the files read, the archive piped to the engine (`none` when the
engine was never invoked), the ordered writes to the primary output stream,
the files overwritten, and the final filesystem. -/
structure FmtResult where
  err : Option Err
  reads : List String
  enginePayload : Option (List TarEntry)
  stdoutWrites : List String
  wrote : List String
  fsFinal : Node

/-- `fmtd.Fmt`: locate docker (`dockerFound` models `exec.LookPath`
success), select and check candidates, read them, build the input archive
with the manifest complaining exactly when no file came from traversal,
run the engine, demultiplex its output archive (flushing the buffered
diagnostics last), and finally surface `ErrDryRunFoundFiles` for a dry run
that found per-file output. -/
def Fmt (fs : Node) (pwd : String) (dryrun : Bool) (dockerFound : Bool)
    (engine : List TarEntry → EngineResult) (filenames0 : List String) : FmtResult :=
  if !dockerFound then ⟨some .noDocker, [], none, [], [], fs⟩
  else
    match fmtSelect fs pwd dryrun filenames0 with
    | .error e => ⟨some e, [], none, [], [], fs⟩
    | .ok sel =>
      match readAll fs pwd sel.files with
      | (pairs, some e) => ⟨some e, pairs.map Prod.fst, none, [], [], fs⟩
      | (pairs, none) =>
        let arch := inputArchive (dockerfile sel.moreFns.isEmpty) pairs
        match classifyRun (engine arch) with
        | .error e => ⟨some e, pairs.map Prod.fst, some arch, [], [], fs⟩
        | .ok out =>
          match demuxLoop dryrun pwd ⟨fs, [], [], false, ""⟩ out with
          | (st, some e) =>
            ⟨some e, pairs.map Prod.fst, some arch, st.reports, st.wrote, st.fsCur⟩
          | (st, none) =>
            ⟨if dryrun && st.foundFiles then some .dryRunFoundFiles else none,
             pairs.map Prod.fst, some arch, st.reports ++ [st.diag], st.wrote, st.fsCur⟩

/-! ## Characterizations used by the theorems (stated from the spec's words,
to be compared against the source-derived pipeline above) -/

/-- An output-archive entry processed as per-file output: not a directory
marker and not the reserved diagnostic name. -/
def isPerFile (e : TarEntry) : Bool :=
  !strEndsWith e.name "/" && !(decide (e.name = "stdout"))

/-- The report a per-file entry prints on the primary output stream. -/
def reportOf (e : TarEntry) : Option String :=
  if isPerFile e then some (trimPfx e.name "b/" ++ "\n") else none

/-- All per-file reports of an output archive, in archive order. -/
def reportsOf (l : List TarEntry) : List String := l.filterMap reportOf

/-- The concatenated diagnostic side-channel text of an output archive. -/
def diagOf : List TarEntry → String
  | [] => ""
  | e :: rest =>
    (if !strEndsWith e.name "/" && decide (e.name = "stdout") then e.content else "")
      ++ diagOf rest

/-- Does the output archive contain a per-file entry? -/
def anyPerFile (l : List TarEntry) : Bool := l.any isPerFile

mutual
/-- Modelled from the spec: "recursively enumerate regular files beneath it,
skipping any entry (file or directory) whose name begins with a hidden-file
marker (conventionally a leading dot) - hidden directories are pruned
entirely, not merely skipped". -/
def nonHiddenRegularFilesBeneath (path name : String) : Node → List String
  | Node.file _ _ => if hiddenName name then [] else [path]
  | Node.dir es => if hiddenName name then [] else nonHiddenRegularFilesBeneathE path es
  | Node.other => []

/-- Entry-list version of `nonHiddenRegularFilesBeneath`. -/
def nonHiddenRegularFilesBeneathE (path : String) : Entries → List String
  | .nil => []
  | .cons nm c rest =>
    nonHiddenRegularFilesBeneath (pathJoin path nm) nm c
      ++ nonHiddenRegularFilesBeneathE path rest
end

/-- Contents and writability of the regular file at a resolved component
list, `none` when the path does not name a regular file. -/
def readAt (fs : Node) (comps : List String) : Option (String × Bool) :=
  match resolveN fs comps with
  | some (.file c w) => some (c, w)
  | _ => none

/-- A candidate path on which some eligibility check of the selection loop
fails: `ensureRegular` itself, or - for a directly named regular file -
`ensureUnder`, or (outside dry-run) `ensureWritable`. -/
def candidateFails (fs : Node) (pwd : String) (dryrun : Bool) (fn : String) : Prop :=
  (∃ e, ensureRegular fs pwd dryrun fn = .error e) ∨
    (ensureRegular fs pwd dryrun fn = .ok [] ∧
      ((∃ e, ensureUnder pwd fn = .error e) ∨
        (dryrun = false ∧ ∃ e, ensureWritable fs pwd fn = .error e)))

/-! ## Concrete fixtures for counterexamples and witnesses -/

/-- An engine that always succeeds with an empty output archive. -/
def engineEmpty : List TarEntry → EngineResult := fun _ => .success []

/-- Root filesystem with `/w` (the working directory, empty) and a foreign
directory `/o` holding the regular file `/o/f.go`. -/
def fsOutside : Node :=
  .dir (.cons "o" (.dir (.cons "f.go" (.file "x" true) .nil))
    (.cons "w" (.dir .nil) .nil))

/-- Root filesystem whose working directory `/w` holds one file `x`. -/
def fsOneFile : Node :=
  .dir (.cons "w" (.dir (.cons "x" (.file "ab" true) .nil)) .nil)

/-- Root filesystem whose working directory `/w` holds a subdirectory `d`
with one file of unhandled type `d/f.xyz`. -/
def fsUnhandled : Node :=
  .dir (.cons "w" (.dir (.cons "d" (.dir (.cons "f.xyz" (.file "q" true) .nil)) .nil)) .nil)

/-- Entries of the working directory of `fsHidden`: hidden entries
(`.git/conf`, `.hid`) and visible files `d/a.go` and `d/sub/b.py`. -/
def fsHiddenEntriesW : Entries :=
  .cons ".git" (.dir (.cons "conf" (.file "c" true) .nil)) (
  .cons ".hid" (.file "h" true) (
  .cons "d" (.dir (.cons "a.go" (.file "A" true)
    (.cons "sub" (.dir (.cons "b.py" (.file "B" true) .nil)) .nil))) .nil))

/-- Root filesystem whose working directory `/w` holds hidden entries
(`.git/conf`, `.hid`) and visible files `d/a.go` and `d/sub/b.py`. -/
def fsHidden : Node := .dir (.cons "w" (.dir fsHiddenEntriesW) .nil)

/-- `fsOneFile` after `x`'s contents are replaced by `"zz"`. -/
def fsOneFileZz : Node :=
  .dir (.cons "w" (.dir (.cons "x" (.file "zz" true) .nil)) .nil)

/-- A sample output archive: one per-file entry under the output namespace
and one diagnostic entry. -/
def outSample : List TarEntry :=
  [⟨"b/y", 0o600, 1, "Y"⟩, ⟨"stdout", 0o600, 2, "!!"⟩]

/-- An engine that always returns `outSample`. -/
def engineReport : List TarEntry → EngineResult := fun _ => .success outSample

/-- An engine whose subprocess always fails with a bare `exit status 1`. -/
def engineFail : List TarEntry → EngineResult := fun _ => .failure "exit status 1"

/-- A sample tar entry without the output-namespace prefix. -/
def entryWeird : TarEntry := ⟨"weird.txt", 0o600, 1, "Z"⟩

/-- A sample initial demultiplexer state over `fsOneFile`. -/
def stSample : DemuxState := ⟨fsOneFile, [], [], false, ""⟩

/-! ## Generic lemmas -/

theorem strAppend_assoc (a b c : String) : a ++ b ++ c = a ++ (b ++ c) := by
  apply String.ext
  simp [String.data_append, List.append_assoc]

theorem reportsOf_cons (e : TarEntry) (l : List TarEntry) :
    reportsOf (e :: l) = (reportOf e).toList ++ reportsOf l := by
  cases h : reportOf e <;> simp [reportsOf, List.filterMap_cons, h]

/-- Shape of a successful demultiplexing step: reports, diagnostics and the
found-files flag evolve by the entry's classification. -/
theorem demuxStep_ok_shape (dryrun : Bool) (pwd : String) (st st2 : DemuxState) (e : TarEntry)
    (h : demuxStep dryrun pwd st e = .ok st2) :
    st2.reports = st.reports ++ (reportOf e).toList ∧
    st2.diag = st.diag ++
      (if !strEndsWith e.name "/" && decide (e.name = "stdout") then e.content else "") ∧
    st2.foundFiles = (st.foundFiles || isPerFile e) := by
  unfold demuxStep at h
  by_cases h1 : strEndsWith e.name "/" = true
  · simp [h1] at h
    subst h
    simp [reportOf, isPerFile, h1]
  · rw [Bool.not_eq_true] at h1
    by_cases h2 : e.name = "stdout"
    · simp [h1, h2, (by decide : strEndsWith "stdout" "/" = false)] at h
      subst h
      simp [reportOf, isPerFile, h1, h2, (by decide : strEndsWith "stdout" "/" = false)]
    · cases hd : dryrun with
      | true =>
        simp [h1, h2, hd] at h
        subst h
        simp [reportOf, isPerFile, h1, h2]
      | false =>
        simp only [h1, h2, hd, Bool.false_eq_true, if_false, if_neg] at h
        cases ho : overwriteFileContents st.fsCur pwd (trimPfx e.name "b/") e.content with
        | error msg => simp [ho] at h
        | ok fs2 =>
          simp [ho] at h
          subst h
          simp [reportOf, isPerFile, h1, h2]

/-- A dry-run demultiplexing step never fails, never changes the filesystem
and never records a write. -/
theorem demuxStep_dryrun (pwd : String) (st : DemuxState) (e : TarEntry) :
    ∃ st2, demuxStep true pwd st e = .ok st2 ∧ st2.fsCur = st.fsCur ∧ st2.wrote = st.wrote := by
  unfold demuxStep
  by_cases h1 : strEndsWith e.name "/" = true
  · refine ⟨st, ?_, rfl, rfl⟩
    simp [h1]
  · rw [Bool.not_eq_true] at h1
    by_cases h2 : e.name = "stdout"
    · refine ⟨{ st with diag := st.diag ++ e.content }, ?_, rfl, rfl⟩
      simp [h1, h2, (by decide : strEndsWith "stdout" "/" = false)]
    · exact ⟨{ st with reports := st.reports ++ [trimPfx e.name "b/" ++ "\n"], foundFiles := true }, by simp [h1, h2], rfl, rfl⟩

/-- Shape of a successful demultiplexing loop: the final reports are the
initial ones followed by every per-file report in archive order, the final
diagnostic buffer appends every diagnostic entry's content, and the
found-files flag records whether any per-file entry occurred. -/
theorem demuxLoop_ok_shape (dryrun : Bool) (pwd : String) :
    ∀ (l : List TarEntry) (st st' : DemuxState),
    demuxLoop dryrun pwd st l = (st', none) →
    st'.reports = st.reports ++ reportsOf l ∧
    st'.diag = st.diag ++ diagOf l ∧
    st'.foundFiles = (st.foundFiles || anyPerFile l) := by
  intro l
  induction l with
  | nil =>
    intro st st' h
    simp [demuxLoop] at h
    subst h
    simp [reportsOf, diagOf, anyPerFile]
  | cons e rest ih =>
    intro st st' h
    unfold demuxLoop at h
    cases hs : demuxStep dryrun pwd st e with
    | error err => rw [hs] at h; simp at h
    | ok st2 =>
      rw [hs] at h
      obtain ⟨hr, hd, hf⟩ := ih st2 st' h
      obtain ⟨hr2, hd2, hf2⟩ := demuxStep_ok_shape dryrun pwd st st2 e hs
      refine ⟨?_, ?_, ?_⟩
      · rw [hr, hr2, reportsOf_cons, List.append_assoc]
      · rw [hd, hd2, diagOf, strAppend_assoc]
      · rw [hf, hf2]
        simp [anyPerFile, Bool.or_assoc]

/-- A dry-run demultiplexing loop never fails, never changes the filesystem
and never records a write. -/
theorem demuxLoop_dryrun (pwd : String) :
    ∀ (l : List TarEntry) (st : DemuxState),
    ∃ st', demuxLoop true pwd st l = (st', none) ∧
      st'.fsCur = st.fsCur ∧ st'.wrote = st.wrote := by
  intro l
  induction l with
  | nil => intro st; exact ⟨st, rfl, rfl, rfl⟩
  | cons e rest ih =>
    intro st
    obtain ⟨st2, hs, hfs, hw⟩ := demuxStep_dryrun pwd st e
    obtain ⟨st', hl, hfs', hw'⟩ := ih st2
    exact ⟨st', by simp [demuxLoop, hs, hl], by rw [hfs', hfs], by rw [hw', hw]⟩

/-- A successful `readAll` reads exactly the requested files, in order. -/
theorem readAll_ok_names (fs : Node) (pwd : String) :
    ∀ (files : List String) (pairs : List (String × String)),
    readAll fs pwd files = (pairs, none) → pairs.map Prod.fst = files := by
  intro files
  induction files with
  | nil =>
    intro pairs h
    simp [readAll] at h
    simp [h]
  | cons fn rest ih =>
    intro pairs h
    unfold readAll at h
    cases hr : readFile fs pwd fn with
    | error e => rw [hr] at h; simp at h
    | ok d =>
      rw [hr] at h
      cases hrest : readAll fs pwd rest with
      | mk ps e' =>
        rw [hrest] at h
        simp at h
        obtain ⟨hp, he⟩ := h
        subst hp
        subst he
        simp [ih ps hrest]

/-- `Fmt` with the engine present and a failing selection phase returns that
error having read nothing, invoked nothing and written nothing. -/
theorem Fmt_select_error (fs : Node) (pwd : String) (dryrun : Bool)
    (engine : List TarEntry → EngineResult) (fns : List String) (e : Err)
    (h : fmtSelect fs pwd dryrun fns = .error e) :
    Fmt fs pwd dryrun true engine fns = ⟨some e, [], none, [], [], fs⟩ := by
  simp [Fmt, h]

/-- `Fmt` unfolded on a run that reaches a successful demultiplexing. -/
theorem Fmt_demux_ok (fs : Node) (pwd : String) (dryrun : Bool)
    (engine : List TarEntry → EngineResult) (fns : List String)
    (sel : Selection) (pairs : List (String × String)) (out : List TarEntry) (st : DemuxState)
    (hsel : fmtSelect fs pwd dryrun fns = .ok sel)
    (hread : readAll fs pwd sel.files = (pairs, none))
    (hrun : engine (inputArchive (dockerfile sel.moreFns.isEmpty) pairs) = .success out)
    (hdx : demuxLoop dryrun pwd ⟨fs, [], [], false, ""⟩ out = (st, none)) :
    Fmt fs pwd dryrun true engine fns =
      ⟨if dryrun && st.foundFiles then some .dryRunFoundFiles else none,
       pairs.map Prod.fst, some (inputArchive (dockerfile sel.moreFns.isEmpty) pairs),
       st.reports ++ [st.diag], st.wrote, st.fsCur⟩ := by
  simp [Fmt, hsel, hread, classifyRun, hrun, hdx]

/-- `Fmt` unfolded on a run whose engine subprocess fails. -/
theorem Fmt_engine_failure (fs : Node) (pwd : String) (dryrun : Bool)
    (engine : List TarEntry → EngineResult) (fns : List String)
    (sel : Selection) (pairs : List (String × String)) (msg : String)
    (hsel : fmtSelect fs pwd dryrun fns = .ok sel)
    (hread : readAll fs pwd sel.files = (pairs, none))
    (hrun : engine (inputArchive (dockerfile sel.moreFns.isEmpty) pairs) = .failure msg) :
    Fmt fs pwd dryrun true engine fns =
      ⟨some (if msg = "exit status 1" then .dockerBuildFailure else .execError msg),
       pairs.map Prod.fst, some (inputArchive (dockerfile sel.moreFns.isEmpty) pairs),
       [], [], fs⟩ := by
  by_cases hm : msg = "exit status 1"
  · simp [Fmt, hsel, hread, classifyRun, hrun, hm]
  · simp [Fmt, hsel, hread, classifyRun, hrun, hm]

/-- If any candidate in the list fails one of its eligibility checks, the
selection loop fails. -/
theorem selectLoop_error_of_mem (fs : Node) (pwd : String) (dryrun : Bool) :
    ∀ (l : List String) (fn : String), fn ∈ l → candidateFails fs pwd dryrun fn →
    ∃ e, selectLoop fs pwd dryrun l = .error e := by
  intro l
  induction l with
  | nil => intro fn h _; exact absurd h (List.not_mem_nil fn)
  | cons x rest ih =>
    intro fn hmem hfail
    rcases List.mem_cons.mp hmem with hx | hrest
    · subst hx
      rcases hfail with ⟨e, he⟩ | ⟨hreg, hrest2⟩
      · exact ⟨e, by simp [selectLoop, he]⟩
      · rcases hrest2 with ⟨e, hu⟩ | ⟨hdr, e, hw⟩
        · exact ⟨e, by simp [selectLoop, hreg, hu]⟩
        · subst hdr
          cases hu : ensureUnder pwd fn with
          | error e2 => exact ⟨e2, by simp [selectLoop, hreg, hu]⟩
          | ok _ => exact ⟨e, by simp [selectLoop, hreg, hu, hw]⟩
    · obtain ⟨e, hsel⟩ := ih fn hrest hfail
      cases hr : ensureRegular fs pwd dryrun x with
      | error e2 => exact ⟨e2, by simp [selectLoop, hr]⟩
      | ok additional =>
        by_cases hemp : additional.isEmpty = true
        · cases hu : ensureUnder pwd x with
          | error e2 => exact ⟨e2, by simp [selectLoop, hr, hemp, hu]⟩
          | ok _ =>
            cases hwt : (if dryrun then Except.ok () else ensureWritable fs pwd x) with
            | error e2 => exact ⟨e2, by simp [selectLoop, hr, hemp, hu, hwt]⟩
            | ok _ => exact ⟨e, by simp [selectLoop, hr, hemp, hu, hwt, hsel]⟩
        · exact ⟨e, by simp [selectLoop, hr, hemp, hsel]⟩

/-- If any candidate fails one of its eligibility checks, the selection
phase fails. -/
theorem fmtSelect_error_of_mem (fs : Node) (pwd : String) (dryrun : Bool)
    (fns : List String) (fn : String) (hmem : fn ∈ fns)
    (hfail : candidateFails fs pwd dryrun fn) :
    ∃ e, fmtSelect fs pwd dryrun fns = .error e := by
  obtain ⟨e, hsel⟩ := selectLoop_error_of_mem fs pwd dryrun fns fn hmem hfail
  cases fns with
  | nil => exact absurd hmem (List.not_mem_nil fn)
  | cons x rest => exact ⟨e, by simp [fmtSelect, hsel]⟩

mutual
/-- A successful walk of a node collects exactly the non-hidden regular
files beneath it. -/
theorem walkNode_ok_spec (dryrun : Bool) (path name : String) (n : Node) (l : List String)
    (h : walkNode dryrun path name n = .ok l) :
    l = nonHiddenRegularFilesBeneath path name n := by
  cases n with
  | file c w =>
    unfold walkNode at h
    by_cases hh : hiddenName name = true
    · simp [hh] at h
      subst h
      simp [nonHiddenRegularFilesBeneath, hh]
    · cases hw : (if dryrun then Except.ok () else ensureWritableNode path (.file c w)) with
      | error e => simp [hh, hw] at h
      | ok _ =>
        simp [hh, hw] at h
        subst h
        simp [nonHiddenRegularFilesBeneath, hh]
  | dir es =>
    unfold walkNode at h
    by_cases hh : hiddenName name = true
    · simp [hh] at h
      subst h
      simp [nonHiddenRegularFilesBeneath, hh]
    · simp only [hh, Bool.false_eq_true, if_false, if_neg] at h
      rw [walkChildren_ok_spec dryrun path es l h]
      simp [nonHiddenRegularFilesBeneath, hh]
  | other =>
    unfold walkNode at h
    simp at h
    subst h
    simp [nonHiddenRegularFilesBeneath]

/-- A successful walk of a directory's children collects exactly the
non-hidden regular files beneath each child, concatenated in order. -/
theorem walkChildren_ok_spec (dryrun : Bool) (path : String) (es : Entries) (l : List String)
    (h : walkChildren dryrun path es = .ok l) :
    l = nonHiddenRegularFilesBeneathE path es := by
  cases es with
  | nil =>
    unfold walkChildren at h
    simp at h
    subst h
    simp [nonHiddenRegularFilesBeneathE]
  | cons nm c rest =>
    unfold walkChildren at h
    cases h1 : walkNode dryrun (pathJoin path nm) nm c with
    | error e => rw [h1] at h; simp at h
    | ok l1 =>
      rw [h1] at h
      cases h2 : walkChildren dryrun path rest with
      | error e => rw [h2] at h; simp at h
      | ok r =>
        rw [h2] at h
        simp at h
        subst h
        rw [walkNode_ok_spec dryrun (pathJoin path nm) nm c l1 h1,
          walkChildren_ok_spec dryrun path rest r h2]
        simp [nonHiddenRegularFilesBeneathE]
end

/-- Replacing an entry leaves lookups of other names unchanged. -/
theorem lookupE_replaceE_ne (c c' : String) (child2 : Node) (hne : c' ≠ c) :
    ∀ es : Entries, lookupE c' (replaceE c child2 es) = lookupE c' es
  | .nil => rfl
  | .cons nm ch rest => by
    by_cases h : nm = c
    · subst h
      have h3 : ¬(nm = c') := fun h2 => hne h2.symm
      simp [replaceE, lookupE, h3]
    · by_cases h2 : nm = c'
      · simp [replaceE, lookupE, h, h2, hne]
      · simp [replaceE, lookupE, h, h2, lookupE_replaceE_ne c c' child2 hne rest]

/-- Replacing an entry that exists makes lookups of its name find the
replacement. -/
theorem lookupE_replaceE_self (c : String) (child2 : Node) :
    ∀ es : Entries, (lookupE c es).isSome → lookupE c (replaceE c child2 es) = some child2
  | .nil => by simp [lookupE]
  | .cons nm ch rest => by
    intro hs
    by_cases h : nm = c
    · subst h
      simp [replaceE, lookupE]
    · simp [replaceE, lookupE, h] at hs ⊢
      exact lookupE_replaceE_self c child2 rest hs

/-- Reading through a directory steps through the looked-up child. -/
theorem readAt_dir_cons (es : Entries) (c : String) (cs : List String) :
    readAt (.dir es) (c :: cs) =
      (match lookupE c es with | some ch => readAt ch cs | none => none) := by
  cases h : lookupE c es <;> simp [readAt, resolveN, h]

/-- `overwriteAt` fails when the target path does not resolve (it never
creates a file). -/
theorem overwriteAt_missing (data : String) :
    ∀ (comps : List String) (fs : Node), resolveN fs comps = none →
    ∃ msg, overwriteAt data fs comps = .error msg := by
  intro comps
  induction comps with
  | nil => intro fs h; simp [resolveN] at h
  | cons c cs ih =>
    intro fs h
    cases fs with
    | file c2 w => exact ⟨"not a directory", rfl⟩
    | other => exact ⟨"not a directory", rfl⟩
    | dir es =>
      unfold resolveN at h
      simp only [] at h
      cases hl : lookupE c es with
      | none => exact ⟨"no such file or directory", by simp [overwriteAt, hl]⟩
      | some child =>
        simp only [hl] at h
        obtain ⟨msg, hm⟩ := ih child h
        exact ⟨msg, by simp [overwriteAt, hl, hm]⟩

/-- A successful `overwriteAt` presupposes a writable regular file at the
target, replaces exactly its contents (keeping its writability), and leaves
the file at every other path untouched. -/
theorem overwriteAt_ok_spec (data : String) :
    ∀ (comps : List String) (fs fs2 : Node), overwriteAt data fs comps = .ok fs2 →
    ∃ old, readAt fs comps = some (old, true) ∧
      readAt fs2 comps = some (data, true) ∧
      ∀ comps', comps' ≠ comps → readAt fs2 comps' = readAt fs comps' := by
  intro comps
  induction comps with
  | nil =>
    intro fs fs2 h
    cases fs with
    | file c w =>
      cases w with
      | false => simp [overwriteAt] at h
      | true =>
        simp [overwriteAt] at h
        subst h
        refine ⟨c, by simp [readAt, resolveN], by simp [readAt, resolveN], ?_⟩
        intro comps' hne
        cases comps' with
        | nil => exact absurd rfl hne
        | cons c' cs' => simp [readAt, resolveN]
    | dir es => simp [overwriteAt] at h
    | other => simp [overwriteAt] at h
  | cons c cs ih =>
    intro fs fs2 h
    cases fs with
    | file c2 w => simp [overwriteAt] at h
    | other => simp [overwriteAt] at h
    | dir es =>
      unfold overwriteAt at h
      cases hl : lookupE c es with
      | none => rw [hl] at h; simp at h
      | some child =>
        rw [hl] at h
        simp only [] at h
        cases ho : overwriteAt data child cs with
        | error msg => simp only [ho] at h; exact absurd h (by simp)
        | ok child2 =>
          simp only [ho] at h
          simp at h
          subst h
          obtain ⟨old, h1, h2, hframe⟩ := ih child child2 ho
          refine ⟨old, ?_, ?_, ?_⟩
          · rw [readAt_dir_cons]
            simp [hl, h1]
          · rw [readAt_dir_cons]
            rw [lookupE_replaceE_self c child2 es (by simp [hl])]
            simpa using h2
          · intro comps' hne
            cases comps' with
            | nil => simp [readAt, resolveN]
            | cons c' cs' =>
              by_cases hc : c' = c
              · subst hc
                rw [readAt_dir_cons, readAt_dir_cons]
                rw [lookupE_replaceE_self c' child2 es (by simp [hl]), hl]
                have hcs : cs' ≠ cs := fun hcs => hne (by rw [hcs])
                simpa using hframe cs' hcs
              · rw [readAt_dir_cons, readAt_dir_cons,
                  lookupE_replaceE_ne c c' child2 hc es]

/-- The lexicographic character-list order is total. -/
theorem charListLe_total : ∀ a b : List Char, charListLe a b = true ∨ charListLe b a = true
  | [], _ => Or.inl rfl
  | _ :: _, [] => Or.inr rfl
  | a :: as, b :: bs => by
    by_cases h : a = b
    · subst h
      simp only [charListLe, if_pos rfl]
      exact charListLe_total as bs
    · rcases lt_or_gt_of_ne h with hlt | hgt
      · exact Or.inl (by simp [charListLe, h, hlt])
      · refine Or.inr ?_
        have hba : ¬(b = a) := fun h2 => h h2.symm
        simp [charListLe, hba, hgt]

/-- The lexicographic character-list order is transitive. -/
theorem charListLe_trans : ∀ a b c : List Char,
    charListLe a b = true → charListLe b c = true → charListLe a c = true
  | [], _, _ => fun _ _ => rfl
  | _ :: _, [], _ => fun h _ => by simp [charListLe] at h
  | _ :: _, _ :: _, [] => fun _ h => by simp [charListLe] at h
  | a :: as, b :: bs, c :: cs => fun h1 h2 => by
    by_cases hab : a = b
    · subst hab
      by_cases hac : a = c
      · subst hac
        simp only [charListLe, if_pos rfl] at h1 h2 ⊢
        exact charListLe_trans as bs cs h1 h2
      · simp [charListLe, hac] at h2 ⊢
        exact h2
    · by_cases hbc : b = c
      · subst hbc
        simp [charListLe, hab] at h1 ⊢
        exact h1
      · simp [charListLe, hab] at h1
        simp [charListLe, hbc] at h2
        have hac : a < c := lt_trans h1 h2
        simp [charListLe, ne_of_lt hac, hac]

/-- The Go string order is total. -/
theorem strLeP_total : ∀ a b : String, strLeP a b ∨ strLeP b a :=
  fun a b => charListLe_total a.data b.data

/-- The Go string order is transitive. -/
theorem strLeP_trans : ∀ a b c : String, strLeP a b → strLeP b c → strLeP a c :=
  fun a b c => charListLe_trans a.data b.data c.data

/-- `uniqueSorted` returns a sorted list of pairwise distinct strings. -/
theorem uniqueSorted_sorted_nodup (xs : List String) :
    (uniqueSorted xs).Sorted strLeP ∧ (uniqueSorted xs).Nodup := by
  constructor
  · exact @List.sorted_insertionSort String strLeP _ ⟨strLeP_total⟩
      ⟨fun a b c => strLeP_trans a b c⟩ xs.dedup
  · exact ((List.perm_insertionSort strLeP xs.dedup).nodup_iff).mpr (List.nodup_dedup xs)

/-- A successful selection returns a sorted, duplicate-free file list. -/
theorem fmtSelect_ok_sorted (fs : Node) (pwd : String) (dryrun : Bool) (fns : List String)
    (sel : Selection) (h : fmtSelect fs pwd dryrun fns = .ok sel) :
    sel.files.Sorted strLeP ∧ sel.files.Nodup := by
  unfold fmtSelect at h
  cases hl : selectLoop fs pwd dryrun (if fns.isEmpty then [pwd] else fns) with
  | error e => rw [hl] at h; simp at h
  | ok p =>
    rw [hl] at h
    cases p with
    | mk a b =>
      simp at h
      rw [← h]
      exact uniqueSorted_sorted_nodup (a ++ b)

/-- A dry run never writes a file and never changes the filesystem, whatever
happens. -/
theorem Fmt_dryrun_frame (fs : Node) (pwd : String) (dockerFound : Bool)
    (engine : List TarEntry → EngineResult) (fns : List String) :
    (Fmt fs pwd true dockerFound engine fns).wrote = [] ∧
    (Fmt fs pwd true dockerFound engine fns).fsFinal = fs := by
  cases dockerFound with
  | false => simp [Fmt]
  | true =>
    cases hsel : fmtSelect fs pwd true fns with
    | error e => simp [Fmt_select_error fs pwd true engine fns e hsel]
    | ok sel =>
      cases hread : readAll fs pwd sel.files with
      | mk pairs rerr =>
        cases rerr with
        | some e => simp [Fmt, hsel, hread]
        | none =>
          cases hrun : engine (inputArchive (dockerfile sel.moreFns.isEmpty) pairs) with
          | failure msg =>
            simp [Fmt_engine_failure fs pwd true engine fns sel pairs msg hsel hread hrun]
          | success out =>
            obtain ⟨st', hdx, hfs, hw⟩ := demuxLoop_dryrun pwd out ⟨fs, [], [], false, ""⟩
            rw [Fmt_demux_ok fs pwd true engine fns sel pairs out st' hsel hread hrun hdx]
            exact ⟨hw, hfs⟩

/-! ## Claim theorems -/

/-- C3: whenever any eligibility check (regular-file, root-containment or
writability) fails for any candidate path, the selection phase fails, and a
failing selection phase makes `Fmt` return that classified error having read
no file, invoked no engine, written nothing, and left the filesystem
unchanged. -/
theorem fmt_eligibility_failure_aborts (fs : Node) (pwd : String) (dryrun : Bool)
    (engine : List TarEntry → EngineResult) (fns : List String) :
    (∀ e, fmtSelect fs pwd dryrun fns = .error e →
      Fmt fs pwd dryrun true engine fns = ⟨some e, [], none, [], [], fs⟩) ∧
    (∀ fn ∈ fns, candidateFails fs pwd dryrun fn →
      ∃ e, fmtSelect fs pwd dryrun fns = .error e) := by
  constructor
  · intro e h
    exact Fmt_select_error fs pwd dryrun engine fns e h
  · intro fn hmem hfail
    exact fmtSelect_error_of_mem fs pwd dryrun fns fn hmem hfail

/-- Witness for C3 at a concrete input: a nonexistent candidate aborts the
whole run with a classified not-found error and no effect. -/
theorem fmt_eligibility_failure_aborts_witness :
    Fmt fsOneFile "/w" true true engineEmpty ["missing"] =
      ⟨some (.unusable "missing" "no such file or directory"), [], none, [], [], fsOneFile⟩ ∧
    (∃ e, fmtSelect fsOneFile "/w" true ["missing"] = .error e) := by
  have h := fmt_eligibility_failure_aborts fsOneFile "/w" true engineEmpty ["missing"]
  refine ⟨h.1 (.unusable "missing" "no such file or directory") (by decide), ?_⟩
  exact h.2 "missing" (by decide)
    (Or.inl ⟨.unusable "missing" "no such file or directory", by decide⟩)

/-- C4: a dry run writes no file and leaves the filesystem untouched, and a
dry run that reaches the demultiplexer returns `ErrDryRunFoundFiles` exactly
when the output archive contains a per-file entry - with no per-file entry
it returns nil. -/
theorem fmt_dryrun_policy (fs : Node) (pwd : String) (dockerFound : Bool)
    (engine : List TarEntry → EngineResult) (fns : List String) :
    (Fmt fs pwd true dockerFound engine fns).wrote = [] ∧
    (Fmt fs pwd true dockerFound engine fns).fsFinal = fs ∧
    (∀ sel pairs out,
      fmtSelect fs pwd true fns = .ok sel →
      readAll fs pwd sel.files = (pairs, none) →
      engine (inputArchive (dockerfile sel.moreFns.isEmpty) pairs) = .success out →
      dockerFound = true →
      (Fmt fs pwd true dockerFound engine fns).err =
        (if anyPerFile out = true then some Err.dryRunFoundFiles else none)) := by
  refine ⟨(Fmt_dryrun_frame fs pwd dockerFound engine fns).1,
    (Fmt_dryrun_frame fs pwd dockerFound engine fns).2, ?_⟩
  intro sel pairs out hsel hread hrun hdf
  subst hdf
  obtain ⟨st', hdx, _, _⟩ := demuxLoop_dryrun pwd out ⟨fs, [], [], false, ""⟩
  rw [Fmt_demux_ok fs pwd true engine fns sel pairs out st' hsel hread hrun hdx]
  obtain ⟨_, _, hf⟩ := demuxLoop_ok_shape true pwd out ⟨fs, [], [], false, ""⟩ st' hdx
  simp at hf
  simp [hf]

/-- Witness for C4 at a concrete input: the sample output archive has a
per-file entry, so the dry run returns the found-files signal while writing
nothing. -/
theorem fmt_dryrun_policy_witness :
    (Fmt fsOneFile "/w" true true engineReport ["x"]).wrote = [] ∧
    (Fmt fsOneFile "/w" true true engineReport ["x"]).fsFinal = fsOneFile ∧
    (Fmt fsOneFile "/w" true true engineReport ["x"]).err =
      (if anyPerFile outSample = true then some Err.dryRunFoundFiles else none) := by
  have h := fmt_dryrun_policy fsOneFile "/w" true engineReport ["x"]
  exact ⟨h.1, h.2.1, h.2.2 ⟨["x"], []⟩ [("x", "ab")] outSample (by decide) rfl rfl rfl⟩

/-- C6: on a run whose demultiplexing completes, the primary output stream
receives every per-file report in archive order and then exactly one final
write holding the buffered diagnostic side-channel text. -/
theorem demux_diagnostics_flushed_last (fs : Node) (pwd : String) (dryrun : Bool)
    (engine : List TarEntry → EngineResult) (fns : List String)
    (sel : Selection) (pairs : List (String × String)) (out : List TarEntry) (st : DemuxState)
    (hsel : fmtSelect fs pwd dryrun fns = .ok sel)
    (hread : readAll fs pwd sel.files = (pairs, none))
    (hrun : engine (inputArchive (dockerfile sel.moreFns.isEmpty) pairs) = .success out)
    (hdx : demuxLoop dryrun pwd ⟨fs, [], [], false, ""⟩ out = (st, none)) :
    (Fmt fs pwd dryrun true engine fns).stdoutWrites = reportsOf out ++ [diagOf out] := by
  rw [Fmt_demux_ok fs pwd dryrun engine fns sel pairs out st hsel hread hrun hdx]
  obtain ⟨hr, hd, _⟩ := demuxLoop_ok_shape dryrun pwd out ⟨fs, [], [], false, ""⟩ st hdx
  simp only [] at hr hd
  simp at hr
  rw [hr, hd]
  have : ("" : String) ++ diagOf out = diagOf out := by
    apply String.ext
    simp [String.data_append]
  simp [this]

/-- Witness for C6 at a concrete input. -/
theorem demux_diagnostics_flushed_last_witness :
    (Fmt fsOneFile "/w" true true engineReport ["x"]).stdoutWrites =
      reportsOf outSample ++ [diagOf outSample] := by
  refine demux_diagnostics_flushed_last fsOneFile "/w" true engineReport ["x"]
    ⟨["x"], []⟩ [("x", "ab")] outSample ⟨fsOneFile, ["y\n"], [], true, "" ++ "!!"⟩
    (by decide) rfl rfl rfl

/-- C7: a subprocess failure whose rendering is exactly `exit status 1` is
returned as the build-failure error, any other subprocess failure is
propagated unchanged, and a missing docker executable yields the distinct
engine-missing error. -/
theorem engine_error_classification (fs : Node) (pwd : String) (dryrun : Bool)
    (engine : List TarEntry → EngineResult) (fns : List String)
    (sel : Selection) (pairs : List (String × String)) (msg : String)
    (hsel : fmtSelect fs pwd dryrun fns = .ok sel)
    (hread : readAll fs pwd sel.files = (pairs, none))
    (hrun : engine (inputArchive (dockerfile sel.moreFns.isEmpty) pairs) = .failure msg) :
    (Fmt fs pwd dryrun true engine fns).err =
      some (if msg = "exit status 1" then Err.dockerBuildFailure else Err.execError msg) ∧
    (Fmt fs pwd dryrun false engine fns).err = some Err.noDocker := by
  constructor
  · rw [Fmt_engine_failure fs pwd dryrun engine fns sel pairs msg hsel hread hrun]
  · simp [Fmt]

/-- Witness for C7 at a concrete input. -/
theorem engine_error_classification_witness :
    (Fmt fsOneFile "/w" true true engineFail ["x"]).err = some Err.dockerBuildFailure ∧
    (Fmt fsOneFile "/w" true false engineFail ["x"]).err = some Err.noDocker := by
  have h := engine_error_classification fsOneFile "/w" true engineFail ["x"]
    ⟨["x"], []⟩ [("x", "ab")] "exit status 1" (by decide) rfl rfl
  exact ⟨by simpa using h.1, h.2⟩

/-- C8: traversing a candidate directory selects exactly the non-hidden
regular files beneath it - files with a leading-dot name are skipped,
leading-dot directories are pruned with everything beneath them, and every
non-hidden regular file is collected. -/
theorem walk_selects_non_hidden_regular_files (fs : Node) (pwd : String) (dryrun : Bool)
    (fn : String) (es : Entries) (l : List String)
    (hdir : lstat fs pwd fn = some (.dir es))
    (h : ensureRegular fs pwd dryrun fn = .ok l) :
    l = nonHiddenRegularFilesBeneath fn (baseName fn) (.dir es) := by
  unfold ensureRegular at h
  rw [hdir] at h
  exact walkNode_ok_spec dryrun fn (baseName fn) (.dir es) l h

/-- Witness for C8 at a concrete input: traversal of `/w` skips `.hid`,
prunes `.git` entirely (its file `conf` is never selected), and selects the
non-hidden regular files `d/a.go` and `d/sub/b.py`. -/
theorem walk_selects_non_hidden_regular_files_witness :
    ["/w/d/a.go", "/w/d/sub/b.py"] =
      nonHiddenRegularFilesBeneath "/w" (baseName "/w") (.dir fsHiddenEntriesW) := by
  exact walk_selects_non_hidden_regular_files fsHidden "/w" true "/w" fsHiddenEntriesW
    ["/w/d/a.go", "/w/d/sub/b.py"] rfl (by decide)

/-- C9: `OverwriteFileContents` never creates a file - a target that does
not resolve is an error - and on success the target's contents become
exactly the data read from the reader while its permission bit and the file
at every other path are unchanged. -/
theorem overwrite_file_contents_spec (fs : Node) (pwd fn : String) (data : String) :
    (lstat fs pwd fn = none → ∃ msg, overwriteFileContents fs pwd fn data = .error msg) ∧
    (∀ fs2, overwriteFileContents fs pwd fn data = .ok fs2 →
      ∃ old, readAt fs (absComps pwd fn) = some (old, true) ∧
        readAt fs2 (absComps pwd fn) = some (data, true) ∧
        ∀ comps', comps' ≠ absComps pwd fn → readAt fs2 comps' = readAt fs comps') := by
  constructor
  · intro h
    by_cases hfn : fn = ""
    · exact ⟨"no such file or directory", by simp [overwriteFileContents, hfn]⟩
    · unfold lstat at h
      rw [if_neg hfn] at h
      obtain ⟨msg, hm⟩ := overwriteAt_missing data (absComps pwd fn) fs h
      exact ⟨msg, by simp [overwriteFileContents, hfn, hm]⟩
  · intro fs2 h
    by_cases hfn : fn = ""
    · simp [overwriteFileContents, hfn] at h
    · simp only [overwriteFileContents, hfn, if_neg, if_false] at h
      exact overwriteAt_ok_spec data (absComps pwd fn) fs fs2 h

/-- Witness for C9 at concrete inputs: overwriting the missing `/w/nope`
fails, while overwriting `/w/x` with `"zz"` yields exactly `fsOneFileZz`,
preserving the untouched path `/o`. -/
theorem overwrite_file_contents_spec_witness :
    (∃ msg, overwriteFileContents fsOneFile "/w" "nope" "zz" = .error msg) ∧
    (∃ old, readAt fsOneFile (absComps "/w" "x") = some (old, true) ∧
      readAt fsOneFileZz (absComps "/w" "x") = some ("zz", true)) ∧
    readAt fsOneFileZz ["o"] = readAt fsOneFile ["o"] := by
  refine ⟨(overwrite_file_contents_spec fsOneFile "/w" "nope" "zz").1 rfl, ?_, ?_⟩
  · obtain ⟨old, h1, h2, _⟩ :=
      (overwrite_file_contents_spec fsOneFile "/w" "x" "zz").2 fsOneFileZz rfl
    exact ⟨old, h1, h2⟩
  · obtain ⟨_, _, _, hf⟩ :=
      (overwrite_file_contents_spec fsOneFile "/w" "x" "zz").2 fsOneFileZz rfl
    exact hf ["o"] (by decide)

/-- C10: a non-directory output entry that is not the reserved `stdout`
name is handled as per-file output even when its name lacks the `b/`
prefix: `TrimPrefix` leaves such a name unchanged, it is reported verbatim
(with a newline) on the primary output, and in a non-dry run that very name
is the path opened for overwriting. -/
theorem demux_unprefixed_entry_passthrough (pwd : String) (st : DemuxState) (e : TarEntry)
    (hnd : strEndsWith e.name "/" = false) (hns : e.name ≠ "stdout")
    (hnp : strStartsWith e.name "b/" = false) :
    trimPfx e.name "b/" = e.name ∧
    demuxStep true pwd st e =
      .ok { st with reports := st.reports ++ [e.name ++ "\n"], foundFiles := true } ∧
    demuxStep false pwd st e =
      (match overwriteFileContents st.fsCur pwd e.name e.content with
       | .error msg => .error (.osError msg)
       | .ok fs2 =>
         .ok { st with reports := st.reports ++ [e.name ++ "\n"], foundFiles := true,
                       fsCur := fs2, wrote := st.wrote ++ [e.name] }) := by
  have ht : trimPfx e.name "b/" = e.name := by
    simp [trimPfx, hnp]
  refine ⟨ht, ?_, ?_⟩
  · simp [demuxStep, hnd, hns, ht]
  · cases ho : overwriteFileContents st.fsCur pwd e.name e.content with
    | error msg => simp [demuxStep, hnd, hns, ht, ho]
    | ok fs2 => simp [demuxStep, hnd, hns, ht, ho]

/-- Witness for C10 at a concrete input: the entry named `weird.txt` (no
`b/` prefix) is reported verbatim and is the overwrite target. -/
theorem demux_unprefixed_entry_passthrough_witness :
    trimPfx entryWeird.name "b/" = entryWeird.name ∧
    demuxStep true "/w" stSample entryWeird =
      .ok { stSample with reports := stSample.reports ++ [entryWeird.name ++ "\n"],
                          foundFiles := true } ∧
    demuxStep false "/w" stSample entryWeird =
      (match overwriteFileContents stSample.fsCur "/w" entryWeird.name entryWeird.content with
       | .error msg => .error (.osError msg)
       | .ok fs2 =>
         .ok { stSample with reports := stSample.reports ++ [entryWeird.name ++ "\n"],
                             foundFiles := true, fsCur := fs2,
                             wrote := stSample.wrote ++ [entryWeird.name] }) := by
  exact demux_unprefixed_entry_passthrough "/w" stSample entryWeird
    (by decide) (by decide) (by decide)

/-- C1 counterexample: the directory candidate `../o` and its
traversal-discovered file `../o/f.go` both resolve outside the working root
`/w`, yet `Fmt` raises no not-under-root error: selection succeeds, the
outside file is read, the engine is invoked, and the run returns nil. -/
theorem fmt_outside_root_counterexample :
    fmtSelect fsOutside "/w" true ["../o"] = .ok ⟨["../o/f.go"], ["../o/f.go"]⟩ ∧
    absStr "/w" "../o/f.go" = "/o/f.go" ∧
    strStartsWith (absStr "/w" "../o/f.go") "/w" = false ∧
    (Fmt fsOutside "/w" true true engineEmpty ["../o"]).err = none ∧
    (Fmt fsOutside "/w" true true engineEmpty ["../o"]).reads = ["../o/f.go"] ∧
    (Fmt fsOutside "/w" true true engineEmpty ["../o"]).enginePayload.isSome = true := by
  exact ⟨by decide, by decide, by decide, rfl, rfl, rfl⟩

/-- C1 amended: the not-under-root check is applied only to directly named
candidates that are regular files and whose name begins with a dot or is
absolute; for such a candidate whose absolute path does not have `pwd` as a
string prefix, `ensureUnder` yields the not-under-root error and `Fmt`
aborts before reading any file or invoking the engine.  Traversal-discovered
files and other relative names are never checked. -/
theorem fmt_not_under_pwd_check (fs : Node) (pwd : String) (dryrun : Bool)
    (engine : List TarEntry → EngineResult) (fns : List String) (fn : String)
    (hmem : fn ∈ fns)
    (hreg : ensureRegular fs pwd dryrun fn = .ok [])
    (hdot : strStartsWith fn "." = true ∨ isAbs fn = true)
    (hout : strStartsWith (absStr pwd fn) pwd = false) :
    ensureUnder pwd fn = .error (.unusable fn "not under $PWD") ∧
    ∃ e, Fmt fs pwd dryrun true engine fns = ⟨some e, [], none, [], [], fs⟩ := by
  have hu : ensureUnder pwd fn = .error (.unusable fn "not under $PWD") := by
    unfold ensureUnder
    rcases hdot with h | h
    · simp [volumeName, h, hout]
    · simp [volumeName, h, hout]
  refine ⟨hu, ?_⟩
  obtain ⟨e, hsel⟩ := fmtSelect_error_of_mem fs pwd dryrun fns fn hmem
    (Or.inr ⟨hreg, Or.inl ⟨_, hu⟩⟩)
  exact ⟨e, Fmt_select_error fs pwd dryrun engine fns e hsel⟩

/-- Witness for the amended C1 at a concrete input: the absolute candidate
`/o/f.go` outside `/w` is rejected before the engine runs. -/
theorem fmt_not_under_pwd_check_witness :
    ensureUnder "/w" "/o/f.go" = .error (.unusable "/o/f.go" "not under $PWD") ∧
    ∃ e, Fmt fsOutside "/w" true true engineEmpty ["/o/f.go"] =
      ⟨some e, [], none, [], [], fsOutside⟩ := by
  exact fmt_not_under_pwd_check fsOutside "/w" true engineEmpty ["/o/f.go"] "/o/f.go"
    (by decide) (by decide) (Or.inr (by decide)) (by decide)

/-- C2 counterexample: in a run where traversal produced files, the
manifest is `dockerfile false`, whose unhandled-file (wildcard) action is
the empty command - nothing is reported to the diagnostic side-channel for
unhandled file types; the complain-to-side-channel echo command is spliced
in precisely when no traversal occurred (`dockerfile true`), and even then
it is a diagnostic append, not a failing command. -/
theorem dockerfile_complain_inverted_counterexample :
    fmtSelect fsUnhandled "/w" true ["d"] = .ok ⟨["d/f.xyz"], ["d/f.xyz"]⟩ ∧
    (fmtArchive fsUnhandled "/w" true ["d"]).map (fun l => l.head?.map TarEntry.content) =
      .ok (some (dockerfile false)) ∧
    dockerfile false = dockerfileHeader ++ dockerfileBody ++ "" ++ dockerfileTail ∧
    dockerfile true =
      dockerfileHeader ++ dockerfileBody ++ "echo \"! $f\" >>../stdout" ++ dockerfileTail ∧
    ("" : String) ≠ "echo \"! $f\" >>../stdout" := by
  refine ⟨by decide, rfl, by simp [dockerfile], by simp [dockerfile], by decide⟩

/-- C2 amended: the generated manifest varies only with whether traversal
produced files (`Fmt` builds `dockerfile (moreFns.isEmpty)`), and the sole
varying part is the wildcard-case action: the no-traversal manifest appends
a complaint line for unhandled file types to the diagnostic side-channel
file, while the traversal manifest runs no command for them. -/
theorem dockerfile_varies_only_with_traversal (fs : Node) (pwd : String) (dryrun : Bool)
    (fns : List String) (sel : Selection) (pairs : List (String × String))
    (hsel : fmtSelect fs pwd dryrun fns = .ok sel)
    (hread : readAll fs pwd sel.files = (pairs, none)) :
    (fmtArchive fs pwd dryrun fns).map (fun l => l.head?.map TarEntry.content) =
      .ok (some (dockerfile sel.moreFns.isEmpty)) ∧
    (∀ b, dockerfile b =
      dockerfileHeader ++ dockerfileBody ++
        (if b then "echo \"! $f\" >>../stdout" else "") ++ dockerfileTail) := by
  constructor
  · simp [fmtArchive, hsel, hread, inputArchive, Except.map]
  · intro b
    rfl

/-- Witness for the amended C2 at a concrete input. -/
theorem dockerfile_varies_only_with_traversal_witness :
    (fmtArchive fsUnhandled "/w" true ["d"]).map (fun l => l.head?.map TarEntry.content) =
      .ok (some (dockerfile (["d/f.xyz"] : List String).isEmpty)) ∧
    dockerfile true =
      dockerfileHeader ++ dockerfileBody ++
        (if true then "echo \"! $f\" >>../stdout" else "") ++ dockerfileTail := by
  have h := dockerfile_varies_only_with_traversal fsUnhandled "/w" true ["d"]
    ⟨["d/f.xyz"], ["d/f.xyz"]⟩ [("d/f.xyz", "q")] (by decide) rfl
  exact ⟨h.1, h.2 true⟩

/-- C5 counterexample: with the candidates `./x` and `x` (two spellings of
the same file) the input archive holds two entries with the identical name
`a/x`: archive entry names are not unique. -/
theorem input_archive_duplicate_names_counterexample :
    (fmtArchive fsOneFile "/w" true ["./x", "x"]).map (fun l => l.map TarEntry.name) =
      .ok ["Dockerfile", "a/x", "a/x"] ∧
    ¬ (["Dockerfile", "a/x", "a/x"] : List String).Nodup := by
  exact ⟨rfl, by decide⟩

/-- C5 amended: the archive always holds `1 + n` entries for `n` selected
files: the manifest entry named `Dockerfile` first with mode `0200`, then
one entry per selected file named `Join("a", path)` with mode `0600`,
following the sorted duplicate-free order of the selected paths, and every
entry's declared size equals its content's length.  Entry names themselves
need not be unique or sorted, since distinct selected paths may collapse
after joining. -/
theorem input_archive_shape (fs : Node) (pwd : String) (dryrun : Bool)
    (fns : List String) (sel : Selection) (pairs : List (String × String))
    (hsel : fmtSelect fs pwd dryrun fns = .ok sel)
    (hread : readAll fs pwd sel.files = (pairs, none)) :
    ∃ arch, fmtArchive fs pwd dryrun fns = .ok arch ∧
      arch.length = 1 + sel.files.length ∧
      arch.head? = some ⟨"Dockerfile", 0o200, (dockerfile sel.moreFns.isEmpty).length,
        dockerfile sel.moreFns.isEmpty⟩ ∧
      arch.tail.map TarEntry.name = sel.files.map (fun f => pathJoin "a" f) ∧
      (∀ e ∈ arch.tail, e.mode = 0o600) ∧
      (∀ e ∈ arch, e.size = e.content.length) ∧
      sel.files.Sorted strLeP ∧ sel.files.Nodup := by
  have hnames := readAll_ok_names fs pwd sel.files pairs hread
  refine ⟨inputArchive (dockerfile sel.moreFns.isEmpty) pairs, ?_, ?_, rfl, ?_, ?_, ?_, ?_⟩
  · simp [fmtArchive, hsel, hread]
  · have : pairs.length = sel.files.length := by
      rw [← hnames, List.length_map]
    simp [inputArchive, this]
    omega
  · rw [← hnames]
    simp [inputArchive]
  · intro e he
    simp [inputArchive] at he
    obtain ⟨p, w, _, rfl⟩ := he
    rfl
  · intro e he
    simp [inputArchive] at he
    rcases he with rfl | ⟨p, w, _, rfl⟩ <;> rfl
  · exact fmtSelect_ok_sorted fs pwd dryrun fns sel hsel

/-- Witness for the amended C5 at a concrete input. -/
theorem input_archive_shape_witness :
    ∃ arch, fmtArchive fsOneFile "/w" true ["x"] = .ok arch ∧
      arch.length = 1 + (["x"] : List String).length ∧
      arch.head? = some ⟨"Dockerfile", 0o200, (dockerfile true).length, dockerfile true⟩ ∧
      arch.tail.map TarEntry.name = (["x"] : List String).map (fun f => pathJoin "a" f) ∧
      (∀ e ∈ arch.tail, e.mode = 0o600) ∧
      (∀ e ∈ arch, e.size = e.content.length) ∧
      (["x"] : List String).Sorted strLeP ∧ (["x"] : List String).Nodup := by
  have h := input_archive_shape fsOneFile "/w" true ["x"] ⟨["x"], []⟩ [("x", "ab")]
    (by decide) rfl
  simpa using h

end Fmtd
